import Mathlib

/-!
Shallow embedding of `src/find_mshr.py` (a small file-search and symlink
utility) together with proofs about its behaviour.

Conventions of the embedding:
* file-system paths are plain strings in posix form, matching the use of
  `Path.as_posix` throughout the source;
* the file system is an explicit structure `FS` supplying the results of
  `Path(root).rglob(pattern)`, existence tests, file contents, creation
  timestamps (`st_ctime`, modelled as an integer), and the working
  directory;
* fallible code returns `Except PyErr`, with `PyErr.systemExit` for the
  `exit` helper (Python `SystemExit`, which is not an `Exception`
  subclass) and `PyErr.typeError` / `PyErr.valueError` for ordinary
  exceptions;
* observable side effects (directory traversal, reading the id file,
  printing, creating a symlink) are recorded in an event trace `List Ev`,
  in the order the source performs them.
-/

/-! ### The extraction pattern

`extract_mshr_id` applies the regular expression
`(?:[a-zA-Z_\/\\]*)MSHR([0-9]+)(?:[MIXED]?)(?:[\w-]*)_(?:[R]?)([0-9]+)`
via `re.search`.  The pattern only uses literals, character classes,
greedy `*` and `?` over a character class, and two capturing groups that
are a `+` of the digit class, so the embedding implements a backtracking
matcher for exactly this fragment, with the search and backtracking order
of the Python `re` engine: leftmost starting position first, and each
greedy quantifier tries its longest extent first, later choice points
being exhausted before earlier ones reconsider. -/

/-- Character class `[a-zA-Z_\/\\]` from the extraction pattern. -/
def prefixCls (c : Char) : Bool :=
  c.isAlpha || c == '_' || c == '/' || c == '\\'

/-- Character class `[0-9]`. -/
def digitCls (c : Char) : Bool := c.isDigit

/-- Character class `[MIXED]`, i.e. one of the letters M, I, X, E, D. -/
def mixedCls (c : Char) : Bool :=
  c == 'M' || c == 'I' || c == 'X' || c == 'E' || c == 'D'

/-- Character class `[\w-]`; `\w` is read as ASCII `[a-zA-Z0-9_]`, which
agrees with Python on the ASCII paths this tool manipulates. -/
def wordHyphenCls (c : Char) : Bool :=
  c.isAlphanum || c == '_' || c == '-'

/-- Character class `[R]`. -/
def rCls (c : Char) : Bool := c == 'R'

/-- Abstract syntax for the regular-expression fragment used by the
extraction pattern. -/
inductive RE where
  | lit (c : Char)
  | cls (p : Char → Bool)
  | starCls (p : Char → Bool)
  | optCls (p : Char → Bool)
  | grpPlus (p : Char → Bool)
  | cat (a b : RE)

/-- Suffixes of the input obtained by consuming zero or more characters
of the class `p`, listed in order of increasing consumption. -/
def starSufs (p : Char → Bool) : List Char → List (List Char)
  | [] => [[]]
  | x :: t => if p x then (x :: t) :: starSufs p t else [x :: t]

/-- All splits `(consumed, rest)` of the input where `consumed` is a
nonempty prefix of characters of the class `p`, listed in order of
increasing length of `consumed`. -/
def plusSplits (p : Char → Bool) : List Char → List (List Char × List Char)
  | [] => []
  | x :: t =>
    if p x then ([x], t) :: (plusSplits p t).map (fun pr => (x :: pr.1, pr.2))
    else []

/-- Backtracking matcher in continuation-passing style.  `matchk r s caps k`
matches `r` against a prefix of `s` with capture list `caps` accumulated so
far, and calls the continuation `k` with the remaining input and captures.
Greedy quantifiers try their longest extent first (hence the `reverse` of
the increasing-order split lists), which reproduces the backtracking order
of the Python `re` engine. -/
def matchk : RE → List Char → List (List Char) →
    (List Char → List (List Char) → Option (List (List Char))) →
    Option (List (List Char))
  | .lit c, s, caps, k =>
    match s with
    | [] => none
    | x :: t => if x = c then k t caps else none
  | .cls p, s, caps, k =>
    match s with
    | [] => none
    | x :: t => if p x then k t caps else none
  | .optCls p, s, caps, k =>
    match s with
    | [] => k [] caps
    | x :: t =>
      if p x then
        match k t caps with
        | some r => some r
        | none => k (x :: t) caps
      else k (x :: t) caps
  | .starCls p, s, caps, k =>
    ((starSufs p s).reverse).findSome? (fun s2 => k s2 caps)
  | .grpPlus p, s, caps, k =>
    ((plusSplits p s).reverse).findSome? (fun pr => k pr.2 (caps ++ [pr.1]))
  | .cat a b, s, caps, k =>
    matchk a s caps (fun s2 caps2 => matchk b s2 caps2 k)

/-- Attempt a match anchored at the start of `s`, returning the captures. -/
def matchTop (r : RE) (s : List Char) : Option (List (List Char)) :=
  matchk r s [] (fun _ caps => some caps)

/-- `re.search`: try every starting position from the left, returning the
captures of the first position admitting a match. -/
def reSearch (r : RE) : List Char → Option (List (List Char))
  | [] => matchTop r []
  | x :: t =>
    match matchTop r (x :: t) with
    | some caps => some caps
    | none => reSearch r t

/-- The compiled extraction pattern
`(?:[a-zA-Z_\/\\]*)MSHR([0-9]+)(?:[MIXED]?)(?:[\w-]*)_(?:[R]?)([0-9]+)`. -/
def mshrRE : RE :=
  .cat (.starCls prefixCls)
    (.cat (.lit 'M') (.cat (.lit 'S') (.cat (.lit 'H') (.cat (.lit 'R')
      (.cat (.grpPlus digitCls)
        (.cat (.optCls mixedCls)
          (.cat (.starCls wordHyphenCls)
            (.cat (.lit '_')
              (.cat (.optCls rCls) (.grpPlus digitCls))))))))))

/-- Numeric value of a digit string; `int` applied to a captured group of
digits, so leading zeros are normalized away. -/
def natOfDigits (l : List Char) : Nat :=
  l.foldl (fun n c => n * 10 + (c.toNat - 48)) 0

/-- `extract_mshr_id` (src/find_mshr.py lines 122-130): search the path
text for the pattern and, on a match, return the string formed of
`int(match[1])`, a hyphen, and `int(match[2])`; otherwise return none. -/
def extract_mshr_id (file : String) : Option String :=
  match reSearch mshrRE file.data with
  | some [g1, g2] =>
    some (toString (natOfDigits g1) ++ "-" ++ toString (natOfDigits g2))
  | _ => none

/-! ### Errors, events, and the file-system model -/

/-- Python exceptions raised by the program.  `systemExit` is what the
`exit` helper (src/find_mshr.py lines 245-248) raises, carrying the
message it printed; it derives from `BaseException`, not `Exception`.
`typeError` and `valueError` are ordinary `Exception` subclasses. -/
inductive PyErr where
  | systemExit (msg : String)
  | typeError (msg : String)
  | valueError (tok : String)
deriving DecidableEq

/-- Observable side effects, in the order the source performs them:
`traversed` for forcing `Path(root).rglob(pattern)` into a list,
`loadAttempt` for `load_from_file`, `printed` for a `print` call, and
`linked` for `symlink_to` with the given absolute destination and
source. -/
inductive Ev where
  | traversed (root pattern : String)
  | loadAttempt (file : String)
  | printed (line : String)
  | linked (dest src : String)
deriving DecidableEq

/-- The ambient file system: traversal results for a root and glob
pattern (in traversal order), existence tests, file contents,
`st_ctime` creation timestamps (modelled as integers), and the current
working directory used by `Path.absolute`. -/
structure FS where
  rglob : String → String → List String
  pathExists : String → Bool
  read_text : String → String
  ctime : String → Int
  cwd : String

/-! ### Loading the identifier list -/

/-- `str.split()` with no separator: split on runs of whitespace,
discarding empty pieces. -/
def splitWsAux : List Char → List Char → List String
  | [], acc => if acc.isEmpty then [] else [String.mk acc.reverse]
  | c :: t, acc =>
    if c.isWhitespace then
      if acc.isEmpty then splitWsAux t []
      else String.mk acc.reverse :: splitWsAux t []
    else splitWsAux t (c :: acc)

def splitWs (s : String) : List String := splitWsAux s.data []

/-- Tail of a digit string in which single underscores may separate
digits (PEP 515 grouping accepted by `int`). -/
def digitsTailUS : List Char → Bool
  | [] => true
  | ['_'] => false
  | '_' :: c :: t => digitCls c && digitsTailUS t
  | c :: t => digitCls c && digitsTailUS t

/-- A nonempty digit string with optional single underscore separators. -/
def digitsUS : List Char → Bool
  | [] => false
  | c :: t => digitCls c && digitsTailUS t

/-- Whether `int(s)` succeeds: an optional sign followed by digits with
optional underscore grouping.  `int` also strips surrounding whitespace,
but the tokens produced by `str.split()` never contain any, so stripping
is omitted; unicode digits are likewise out of scope for this tool. -/
def pyIntValid (s : String) : Bool :=
  match s.data with
  | '+' :: r => digitsUS r
  | '-' :: r => digitsUS r
  | l => digitsUS l

/-- The value `int(s)` returns when it succeeds. -/
def pyIntVal (s : String) : Int :=
  match s.data with
  | '+' :: r => (natOfDigits (r.filter (fun c => c != '_')) : Int)
  | '-' :: r => -(natOfDigits (r.filter (fun c => c != '_')) : Int)
  | l => (natOfDigits (l.filter (fun c => c != '_')) : Int)

/-- `int(s)`, raising `ValueError` on an invalid literal. -/
def pyInt (s : String) : Except PyErr Int :=
  if pyIntValid s then .ok (pyIntVal s) else .error (.valueError s)

/-- The list comprehension `[int(x) for x in ...]`: evaluate left to
right, propagating the first error. -/
def intsOf : List String → Except PyErr (List Int)
  | [] => .ok []
  | t :: rest =>
    match pyInt t with
    | .error e => .error e
    | .ok v =>
      match intsOf rest with
      | .error e => .error e
      | .ok vs => .ok (v :: vs)

/-- Message printed by `exit` when the identifier-list file is missing. -/
def missingMsg (file : String) : String :=
  "file " ++ file ++ " doesn\x27t exist!"

/-- `load_from_file` (src/find_mshr.py lines 112-115): fatal exit when
the file does not exist, otherwise whitespace-split the contents and
convert every token with `int`. -/
def load_from_file (fs : FS) (file : String) : Except PyErr (List Int) :=
  if fs.pathExists file then intsOf (splitWs (fs.read_text file))
  else .error (.systemExit (missingMsg file))

/-! ### Filtering by identifier and by substring -/

/-- `int(mshr_id_n.split("-")[0])`: the accession component of an
identifier string `"a-b"`. -/
def accessionNat (mshr_id_n : String) : Nat :=
  natOfDigits (mshr_id_n.data.takeWhile (fun c => c != '-'))

/-- One iteration of the `filter_for_mshr_id` loop: skip candidates with
no identifier, keep those whose accession is in the id list. -/
def filterStep (id_list : List Int) (ret : List String) (file : String) :
    List String :=
  match extract_mshr_id file with
  | none => ret
  | some idn =>
    if id_list.contains ((accessionNat idn : Int)) then ret ++ [file] else ret

/-- `filter_for_mshr_id` (src/find_mshr.py lines 133-146). -/
def filter_for_mshr_id (results : List String) (id_list : List Int) :
    List String :=
  results.foldl (filterStep id_list) []

/-- `str.lower` on the ASCII path text. -/
def lowerStr (s : String) : String := String.mk (s.data.map Char.toLower)

/-- Python substring containment `needle in hay`. -/
def containsSub (needle : List Char) : List Char → Bool
  | [] => needle.isEmpty
  | x :: t => needle.isPrefixOf (x :: t) || containsSub needle t

def pyStrIn (needle hay : String) : Bool := containsSub needle.data hay.data

/-- The comprehension `[x for x in raw for t in terms if t in lower(x)]`
used for both the allowed and the denied list in `do_search`: a path is
emitted once per matching term. -/
def compMatches (raw terms : List String) : List String :=
  raw.flatMap (fun x =>
    terms.filterMap (fun t => if pyStrIn t (lowerStr x) then some x else none))

/-- The final substring filtering of `do_search` (lines 185-191):
`allowed` minus the paths occurring in `denied`. -/
def substrFiltered (raw allow_list deny_list : List String) : List String :=
  let allowed := compMatches raw allow_list
  let denied := compMatches raw deny_list
  allowed.filter (fun a => !(denied.contains a))

/-! ### Duplicate resolution -/

/-- One insertion into the `file_map` dictionary of `solve_duplicates`:
Python dicts preserve first-insertion key order, and `None` (the result
of a failed extraction) is a legitimate key, so the map is an ordered
association list keyed by `Option String`. -/
def addToMap : List (Option String × List String) → Option String → String →
    List (Option String × List String)
  | [], k, f => [(k, [f])]
  | (k0, fs) :: rest, k, f =>
    if k0 = k then (k0, fs ++ [f]) :: rest
    else (k0, fs) :: addToMap rest k f

/-- The grouping loop of `solve_duplicates` (lines 152-157). -/
def buildFileMap (file_paths : List String) :
    List (Option String × List String) :=
  file_paths.foldl (fun m f => addToMap m (extract_mshr_id f) f) []

/-- The `newest` selection loop (lines 163-166): start from the first
member and replace it only on a strictly greater creation time. -/
def newestOf (ct : String → Int) (l : List String) (init : String) : String :=
  l.foldl (fun n x => if ct x > ct n then x else n) init

/-- One iteration of the result loop of `solve_duplicates` (lines
160-169).  Groups in the map are never empty; the empty case returns the
accumulator unchanged. -/
def solveStep (ct : String → Int) (resolution_policy : String)
    (ret : List String) (p : Option String × List String) : List String :=
  match p.2 with
  | [] => ret
  | f :: rest =>
    if rest.isEmpty then ret ++ [f]
    else if resolution_policy == "newest" then
      ret ++ [newestOf ct (f :: rest) f]
    else ret

/-- `solve_duplicates` (src/find_mshr.py lines 149-171), with the
`st_ctime` lookup supplied by the file system as `ct`. -/
def solve_duplicates (ct : String → Int) (file_paths : List String)
    (resolution_policy : String) : List String :=
  (buildFileMap file_paths).foldl (solveStep ct resolution_policy) []

/-! ### Search -/

/-- `do_search` (src/find_mshr.py lines 174-191): traverse first, then
optionally load the identifier list and filter by accession, then apply
the substring allow and deny filters. -/
def do_search (fs : FS) (file : Option String) (root pattern : String)
    (allow_list deny_list : List String) :
    Except PyErr (List String) × List Ev :=
  let raw_results := fs.rglob root pattern
  let evs := [Ev.traversed root pattern]
  match file with
  | none => (.ok (substrFiltered raw_results allow_list deny_list), evs)
  | some f =>
    match load_from_file fs f with
    | .error e => (.error e, evs ++ [Ev.loadAttempt f])
    | .ok id_list =>
      (.ok (substrFiltered (filter_for_mshr_id raw_results id_list)
          allow_list deny_list),
        evs ++ [Ev.loadAttempt f])

/-- `search` (src/find_mshr.py lines 194-210): default `root` and
`pattern`, run `do_search`, and print the results joined by newlines. -/
def search (fs : FS) (file root pattern : Option String)
    (allow_list deny_list : List String) : Except PyErr Unit × List Ev :=
  match do_search fs file (root.getD ".") (pattern.getD "*")
      allow_list deny_list with
  | (.error e, evs) => (.error e, evs)
  | (.ok results, evs) =>
    (.ok (), evs ++ [Ev.printed (String.intercalate "\n" results)])

/-! ### Linking -/

/-- Usage message of `exit` in `link` (line 221). -/
def usageMsg : String :=
  "Must specify either --file or --root and --pattern arguments!"

/-- Split a character list at slashes. -/
def splitSlash : List Char → List Char → List String
  | [], acc => [String.mk acc.reverse]
  | c :: t, acc =>
    if c = '/' then String.mk acc.reverse :: splitSlash t []
    else splitSlash t (c :: acc)

/-- `Path.name`: the final path component (pathlib drops empty and
single-dot components). -/
def pathName (p : String) : String :=
  ((splitSlash p.data []).filter (fun c => (c != "") && (c != "."))).getLastD ""

/-- `PurePosixPath` join of a directory and a file name. -/
def pathJoin (t name : String) : String :=
  if t == "" || t == "." then name else t ++ "/" ++ name

/-- Whether a posix path is absolute. -/
def isAbsPath (p : String) : Bool :=
  match p.data with
  | '/' :: _ => true
  | _ => false

/-- `Path.absolute()`: prepend the working directory to a relative path. -/
def pathAbsolute (cwd p : String) : String :=
  if isAbsPath p then p else cwd ++ "/" ++ p

/-- The runtime value held by the `target` variable inside `link`: the
CLI layer passes a `Path`, while the `target or "."` default produces the
plain string `"."`. -/
inductive PyTarget where
  | pstr (s : String)
  | ppath (s : String)
deriving DecidableEq

/-- Message of the `TypeError` raised by `"." / name` (Python defines
`/` on `Path` operands but not between two `str` values). -/
def typeDivMsg : String := "unsupported operand type(s) for /: str and str"

/-- The expression `target / source.name` of line 232: defined when
`target` is a `Path`, a `TypeError` when `target` is a string. -/
def truediv : PyTarget → String → Except PyErr String
  | .ppath t, name => .ok (pathJoin t name)
  | .pstr _, _ => .error (.typeError typeDivMsg)

/-- The per-candidate loop of `link` (lines 231-236): compute the
destination, then either print the intended link or create it.  A
`TypeError` in the destination computation aborts the loop; links made
before the failure persist in the trace. -/
def linkLoop (fs : FS) (tgt : PyTarget) (dry_run : Bool) :
    List String → Except PyErr Unit × List Ev
  | [] => (.ok (), [])
  | source :: rest =>
    match truediv tgt (pathName source) with
    | .error e => (.error e, [])
    | .ok this_target =>
      let destAbs := pathAbsolute fs.cwd this_target
      let srcAbs := pathAbsolute fs.cwd source
      let next := linkLoop fs tgt dry_run rest
      if dry_run then
        (next.1, Ev.printed (destAbs ++ " -> " ++ srcAbs) :: next.2)
      else
        (next.1, Ev.linked destAbs srcAbs :: next.2)

/-- The part of `link` after its usage validation (lines 223-236):
defaults, search, duplicate resolution, then the linking loop. -/
def linkBody (fs : FS) (root pattern : Option String) (tgt : PyTarget)
    (file : Option String) (dry_run : Bool) : Except PyErr Unit × List Ev :=
  match do_search fs file (root.getD ".") (pattern.getD "*")
      ["mshr"] ["mixed"] with
  | (.error e, evs) => (.error e, evs)
  | (.ok file_paths, evs) =>
    let chosen := solve_duplicates fs.ctime file_paths "newest"
    let loop := linkLoop fs tgt dry_run chosen
    (loop.1, evs ++ loop.2)

/-- `link` (src/find_mshr.py lines 213-236): usage check first, then the
body; the `target or "."` default leaves a plain string in `target` when
the option was not supplied, while a supplied target is a `Path`. -/
def link (fs : FS) (root pattern target file : Option String)
    (dry_run : Bool) : Except PyErr Unit × List Ev :=
  match file, target with
  | none, none => (.error (.systemExit usageMsg), [])
  | _, _ =>
    linkBody fs root pattern
      (match target with
        | some t => .ppath t
        | none => .pstr ".") file dry_run

/-- `dry_link` (src/find_mshr.py lines 239-242). -/
def dry_link (fs : FS) (root pattern target file : Option String) :
    Except PyErr Unit × List Ev :=
  link fs root pattern target file true

/-! ### Top-level exception behaviour -/

/-- How the process terminates. -/
inductive Outcome where
  | completed
  | usageTermination (msg : String)
  | crashed (e : PyErr)
deriving DecidableEq

/-- `main` (src/find_mshr.py lines 303-305) wraps the command in
`except Exception as e: raise e`, so every ordinary exception is
re-raised and terminates the process with a stack trace, while
`SystemExit` raised by the `exit` helper is not an `Exception` subclass
and terminates the process gracefully with the usage text. -/
def mainOutcome : Except PyErr Unit → Outcome
  | .ok _ => .completed
  | .error (.systemExit m) => .usageTermination m
  | .error e => .crashed e

/-! ### Specification-side helper functions

These re-state, per group or per candidate, what the loops above produce;
the theorems below prove the loops equal to them. -/

/-- Contribution of one duplicate group under the `newest` policy. -/
def pickNewest (ct : String → Int) (p : Option String × List String) :
    List String :=
  match p.2 with
  | [] => []
  | f :: rest => [newestOf ct (f :: rest) f]

/-- Contribution of one duplicate group under a policy other than
`newest`: only singleton groups contribute. -/
def pickSingle (p : Option String × List String) : List String :=
  match p.2 with
  | [f] => [f]
  | _ => []

/-- Contribution of one candidate to `filter_for_mshr_id`. -/
def filterPick (id_list : List Int) (file : String) : List String :=
  match extract_mshr_id file with
  | none => []
  | some idn =>
    if id_list.contains ((accessionNat idn : Int)) then [file] else []

/-- The symlinks recorded in a trace, as destination-source pairs. -/
def linkedOf (evs : List Ev) : List (String × String) :=
  evs.filterMap (fun e =>
    match e with
    | .linked d s => some (d, s)
    | _ => none)

/-- The printed lines recorded in a trace. -/
def printedOf (evs : List Ev) : List String :=
  evs.filterMap (fun e =>
    match e with
    | .printed l => some l
    | _ => none)

/-! ### Concrete file systems used as witnesses -/

/-- A tree holding one matching candidate and an id file with `123`. -/
def fsOneMatch : FS :=
  ⟨fun _ _ => ["data/MSHR123_4.txt"], fun p => p == "ids.txt",
    fun _ => "123", fun _ => 0, "/home/user"⟩

/-- A tree holding one matching candidate and no id file at all. -/
def fsNoIds : FS :=
  ⟨fun _ _ => ["data/MSHR123_4.txt"], fun _ => false,
    fun _ => "", fun _ => 0, "/home/user"⟩

/-- An id file containing `123 124 125`. -/
def fsThreeIds : FS :=
  ⟨fun _ _ => [], fun p => p == "ids.txt",
    fun _ => "123 124 125", fun _ => 0, "/home/user"⟩

/-- An id file containing the malformed token list `123 abc`. -/
def fsBadToken : FS :=
  ⟨fun _ _ => [], fun p => p == "bad.txt",
    fun _ => "123 abc", fun _ => 0, "/home/user"⟩

/-- Two candidates sharing identifier `5-1`, the second created later. -/
def fsTwoDup : FS :=
  ⟨fun _ _ => ["d/MSHR5_1.x", "e/MSHR5_1.y"], fun _ => false,
    fun _ => "", fun p => if p == "e/MSHR5_1.y" then 2 else 1, "/home/user"⟩

/-! ### Generic helper lemmas -/

theorem foldl_app_flatMap {α β : Type} (g : α → List β)
    (step : List β → α → List β) (h : ∀ r x, step r x = r ++ g x) :
    ∀ (l : List α) (acc : List β), l.foldl step acc = acc ++ l.flatMap g := by
  intro l
  induction l with
  | nil => intro acc; simp
  | cons a t ih =>
    intro acc
    simp only [List.foldl_cons, List.flatMap_cons, h, ih, List.append_assoc]

theorem contains_iff_mem_str (l : List String) (a : String) :
    l.contains a = true ↔ a ∈ l := List.elem_iff

/-! ### Properties of the `newest` selection loop -/

theorem newestOf_mem (ct : String → Int) :
    ∀ (l : List String) (init : String), newestOf ct l init ∈ init :: l := by
  intro l
  induction l with
  | nil => intro init; simp [newestOf]
  | cons x t ih =>
    intro init
    have hgoal : newestOf ct (x :: t) init
        = newestOf ct t (if ct x > ct init then x else init) := rfl
    rw [hgoal]
    by_cases h : ct x > ct init
    · rw [if_pos h]
      rcases List.mem_cons.mp (ih x) with h1 | h1
      · rw [h1]; exact List.mem_cons_of_mem init (List.mem_cons_self x t)
      · exact List.mem_cons_of_mem init (List.mem_cons_of_mem x h1)
    · rw [if_neg h]
      rcases List.mem_cons.mp (ih init) with h1 | h1
      · rw [h1]; exact List.mem_cons_self init (x :: t)
      · exact List.mem_cons_of_mem init (List.mem_cons_of_mem x h1)

theorem newestOf_ub (ct : String → Int) :
    ∀ (l : List String) (init : String),
      ∀ y ∈ init :: l, ct y ≤ ct (newestOf ct l init) := by
  intro l
  induction l with
  | nil =>
    intro init y hy
    simp at hy
    simp [newestOf, hy]
  | cons x t ih =>
    intro init y hy
    have hgoal : newestOf ct (x :: t) init
        = newestOf ct t (if ct x > ct init then x else init) := rfl
    rw [hgoal]
    by_cases h : ct x > ct init
    · rw [if_pos h]
      have hnext := ih x
      rcases List.mem_cons.mp hy with h1 | h1
      · rw [h1]
        exact le_trans (le_of_lt h) (hnext x (List.mem_cons_self x t))
      · rcases List.mem_cons.mp h1 with h2 | h2
        · rw [h2]
          exact hnext x (List.mem_cons_self x t)
        · exact hnext y (List.mem_cons_of_mem x h2)
    · rw [if_neg h]
      have hnext := ih init
      rcases List.mem_cons.mp hy with h1 | h1
      · rw [h1]
        exact hnext init (List.mem_cons_self init t)
      · rcases List.mem_cons.mp h1 with h2 | h2
        · rw [h2]
          exact le_trans (not_lt.mp h) (hnext init (List.mem_cons_self init t))
        · exact hnext y (List.mem_cons_of_mem init h2)

theorem newestOf_first (ct : String → Int) :
    ∀ (l : List String) (init : String),
      newestOf ct l init = init ∨
        ∃ pre post, l = pre ++ newestOf ct l init :: post ∧
          ∀ y ∈ init :: pre, ct y < ct (newestOf ct l init) := by
  intro l
  induction l with
  | nil => intro init; left; simp [newestOf]
  | cons x t ih =>
    intro init
    have hgoal : newestOf ct (x :: t) init
        = newestOf ct t (if ct x > ct init then x else init) := rfl
    rw [hgoal]
    by_cases h : ct x > ct init
    · rw [if_pos h]
      rcases ih x with h1 | ⟨pre, post, hsplit, hlt⟩
      · right
        refine ⟨[], t, ?_, ?_⟩
        · rw [h1]
          simp
        · intro y hy
          simp at hy
          rw [hy, h1]
          exact h
      · right
        refine ⟨x :: pre, post, ?_, ?_⟩
        · conv_lhs => rw [hsplit]
          simp
        · intro y hy
          have hx : ct x < ct (newestOf ct t x) :=
            hlt x (List.mem_cons_self x pre)
          rcases List.mem_cons.mp hy with h2 | h2
          · rw [h2]
            exact lt_trans h hx
          · rcases List.mem_cons.mp h2 with h3 | h3
            · rw [h3]
              exact hx
            · exact hlt y (List.mem_cons_of_mem x h3)
    · rw [if_neg h]
      rcases ih init with h1 | ⟨pre, post, hsplit, hlt⟩
      · left
        exact h1
      · right
        refine ⟨x :: pre, post, ?_, ?_⟩
        · conv_lhs => rw [hsplit]
          simp
        · intro y hy
          have hi : ct init < ct (newestOf ct t init) :=
            hlt init (List.mem_cons_self init pre)
          rcases List.mem_cons.mp hy with h2 | h2
          · rw [h2]
            exact hi
          · rcases List.mem_cons.mp h2 with h3 | h3
            · rw [h3]
              exact lt_of_le_of_lt (not_lt.mp h) hi
            · exact hlt y (List.mem_cons_of_mem init h3)

theorem newestOf_singleton (ct : String → Int) (f : String) :
    newestOf ct [f] f = f := by
  simp [newestOf]

/-! ### Properties of the grouping map -/

theorem addToMap_inv (k : Option String) (c : String)
    (hc : extract_mshr_id c = k) :
    ∀ (m : List (Option String × List String)),
      (∀ k2 g, (k2, g) ∈ m → ∀ f ∈ g, extract_mshr_id f = k2) →
      ∀ k2 g, (k2, g) ∈ addToMap m k c → ∀ f ∈ g, extract_mshr_id f = k2 := by
  intro m
  induction m with
  | nil =>
    intro _ k2 g hg f hf
    simp only [addToMap, List.mem_singleton, Prod.mk.injEq] at hg
    rcases hg with ⟨hk, hgl⟩
    subst hk
    subst hgl
    simp only [List.mem_singleton] at hf
    subst hf
    exact hc
  | cons p rest ih =>
    rcases p with ⟨k0, g0⟩
    intro hm k2 g hg f hf
    simp only [addToMap] at hg
    by_cases hk : k0 = k
    · rw [if_pos hk] at hg
      rcases List.mem_cons.mp hg with h1 | h1
      · have hk2 : k2 = k0 := (Prod.mk.injEq .. |>.mp h1).1
        have hgl : g = g0 ++ [c] := (Prod.mk.injEq .. |>.mp h1).2
        rw [hgl] at hf
        rcases List.mem_append.mp hf with h2 | h2
        · rw [hk2]
          exact hm k0 g0 (List.mem_cons_self _ _) f h2
        · simp only [List.mem_singleton] at h2
          rw [h2, hc, hk2, hk]
      · exact hm k2 g (List.mem_cons_of_mem _ h1) f hf
    · rw [if_neg hk] at hg
      rcases List.mem_cons.mp hg with h1 | h1
      · have hk2 : k2 = k0 := (Prod.mk.injEq .. |>.mp h1).1
        have hgl : g = g0 := (Prod.mk.injEq .. |>.mp h1).2
        rw [hgl] at hf
        rw [hk2]
        exact hm k0 g0 (List.mem_cons_self _ _) f hf
      · exact ih (fun k3 g3 hg3 => hm k3 g3 (List.mem_cons_of_mem _ hg3)) k2 g h1 f hf

theorem addToMap_self :
    ∀ (m : List (Option String × List String)) (k : Option String) (c : String),
      ∃ g, (k, g) ∈ addToMap m k c ∧ c ∈ g := by
  intro m
  induction m with
  | nil =>
    intro k c
    exact ⟨[c], by simp [addToMap], by simp⟩
  | cons p rest ih =>
    rcases p with ⟨k0, g0⟩
    intro k c
    simp only [addToMap]
    by_cases hk : k0 = k
    · rw [if_pos hk]
      subst hk
      exact ⟨g0 ++ [c], List.mem_cons_self _ _, by simp⟩
    · rw [if_neg hk]
      rcases ih k c with ⟨g, hg, hc⟩
      exact ⟨g, List.mem_cons_of_mem _ hg, hc⟩

theorem addToMap_preserve :
    ∀ (m : List (Option String × List String)) (k : Option String) (c : String)
      (k2 : Option String) (g2 : List String) (f : String),
      (k2, g2) ∈ m → f ∈ g2 →
      ∃ g, (k2, g) ∈ addToMap m k c ∧ f ∈ g := by
  intro m
  induction m with
  | nil =>
    intro k c k2 g2 f hm _
    simp at hm
  | cons p rest ih =>
    rcases p with ⟨k0, g0⟩
    intro k c k2 g2 f hm hf
    simp only [addToMap]
    by_cases hk : k0 = k
    · rw [if_pos hk]
      rcases List.mem_cons.mp hm with h1 | h1
      · have hk2 : k2 = k0 := (Prod.mk.injEq .. |>.mp h1).1
        have hgl : g2 = g0 := (Prod.mk.injEq .. |>.mp h1).2
        refine ⟨g0 ++ [c], ?_, ?_⟩
        · rw [hk2]
          exact List.mem_cons_self _ _
        · rw [hgl] at hf
          exact List.mem_append_left _ hf
      · exact ⟨g2, List.mem_cons_of_mem _ h1, hf⟩
    · rw [if_neg hk]
      rcases List.mem_cons.mp hm with h1 | h1
      · have hk2 : k2 = k0 := (Prod.mk.injEq .. |>.mp h1).1
        have hgl : g2 = g0 := (Prod.mk.injEq .. |>.mp h1).2
        refine ⟨g0, ?_, ?_⟩
        · rw [hk2]
          exact List.mem_cons_self _ _
        · rw [← hgl]
          exact hf
      · rcases ih k c k2 g2 f h1 hf with ⟨g, hg, hfg⟩
        exact ⟨g, List.mem_cons_of_mem _ hg, hfg⟩

theorem buildFileMap_aux_inv :
    ∀ (paths : List String) (m : List (Option String × List String)),
      (∀ k g, (k, g) ∈ m → ∀ f ∈ g, extract_mshr_id f = k) →
      ∀ k g,
        (k, g) ∈ paths.foldl (fun m f => addToMap m (extract_mshr_id f) f) m →
        ∀ f ∈ g, extract_mshr_id f = k := by
  intro paths
  induction paths with
  | nil => intro m hm; exact hm
  | cons a t ih =>
    intro m hm
    simp only [List.foldl_cons]
    exact ih (addToMap m (extract_mshr_id a) a)
      (addToMap_inv (extract_mshr_id a) a rfl m hm)

theorem buildFileMap_inv (paths : List String) :
    ∀ k g, (k, g) ∈ buildFileMap paths → ∀ f ∈ g, extract_mshr_id f = k :=
  buildFileMap_aux_inv paths [] (by simp)

theorem buildFileMap_aux_mem :
    ∀ (paths : List String) (m : List (Option String × List String))
      (f : String),
      (f ∈ paths ∨ ∃ g, (extract_mshr_id f, g) ∈ m ∧ f ∈ g) →
      ∃ g,
        (extract_mshr_id f, g) ∈
          paths.foldl (fun m x => addToMap m (extract_mshr_id x) x) m ∧
        f ∈ g := by
  intro paths
  induction paths with
  | nil =>
    intro m f hf
    rcases hf with hf | hf
    · simp at hf
    · exact hf
  | cons a t ih =>
    intro m f hf
    simp only [List.foldl_cons]
    rcases hf with hf | ⟨g, hg, hfg⟩
    · rcases List.mem_cons.mp hf with h1 | h1
      · subst h1
        exact ih _ f (Or.inr (addToMap_self m (extract_mshr_id f) f))
      · exact ih _ f (Or.inl h1)
    · exact ih _ f
        (Or.inr (addToMap_preserve m (extract_mshr_id a) a (extract_mshr_id f) g f hg hfg))

theorem buildFileMap_mem (paths : List String) (f : String) (hf : f ∈ paths) :
    ∃ g, (extract_mshr_id f, g) ∈ buildFileMap paths ∧ f ∈ g :=
  buildFileMap_aux_mem paths [] f (Or.inl hf)

/-! ### Shapes of the duplicate-resolution output -/

theorem solveStep_newest (ct : String → Int) :
    ∀ (ret : List String) (p : Option String × List String),
      solveStep ct "newest" ret p = ret ++ pickNewest ct p := by
  intro ret p
  rcases p with ⟨k, g⟩
  match g with
  | [] => simp [solveStep, pickNewest]
  | [f] =>
    simp [solveStep, pickNewest, newestOf_singleton]
  | f :: r :: t =>
    simp [solveStep, pickNewest]

theorem solveStep_other (ct : String → Int) (policy : String)
    (hp : policy ≠ "newest") :
    ∀ (ret : List String) (p : Option String × List String),
      solveStep ct policy ret p = ret ++ pickSingle p := by
  intro ret p
  rcases p with ⟨k, g⟩
  match g with
  | [] => simp [solveStep, pickSingle]
  | [f] => simp [solveStep, pickSingle]
  | f :: r :: t =>
    have hb : (policy == "newest") = false := by
      cases hbe : policy == "newest"
      · rfl
      · exact absurd (eq_of_beq hbe) hp
    simp [solveStep, pickSingle, hb]

theorem solve_duplicates_newest_shape (ct : String → Int)
    (paths : List String) :
    solve_duplicates ct paths "newest"
      = (buildFileMap paths).flatMap (pickNewest ct) := by
  have h := foldl_app_flatMap (pickNewest ct) (solveStep ct "newest")
    (solveStep_newest ct) (buildFileMap paths) []
  simpa [solve_duplicates] using h

theorem solve_duplicates_other_shape (ct : String → Int) (policy : String)
    (hp : policy ≠ "newest") (paths : List String) :
    solve_duplicates ct paths policy
      = (buildFileMap paths).flatMap pickSingle := by
  have h := foldl_app_flatMap pickSingle (solveStep ct policy)
    (solveStep_other ct policy hp) (buildFileMap paths) []
  simpa [solve_duplicates] using h

/-! ### Membership characterizations of the filters -/

theorem filterStep_eq (ids : List Int) :
    ∀ (ret : List String) (f : String),
      filterStep ids ret f = ret ++ filterPick ids f := by
  intro ret f
  rcases h : extract_mshr_id f with _ | idn
  · simp [filterStep, filterPick, h]
  · simp only [filterStep, filterPick, h]
    split <;> simp_all

theorem filter_for_mshr_id_shape (raw : List String) (ids : List Int) :
    filter_for_mshr_id raw ids = raw.flatMap (filterPick ids) := by
  have h := foldl_app_flatMap (filterPick ids) (filterStep ids)
    (filterStep_eq ids) raw []
  simpa [filter_for_mshr_id] using h

theorem filterPick_mem (ids : List Int) (a x : String) :
    x ∈ filterPick ids a ↔
      x = a ∧ ∃ idn, extract_mshr_id a = some idn ∧
        ids.contains ((accessionNat idn : Int)) = true := by
  rcases h : extract_mshr_id a with _ | idn
  · simp [filterPick, h]
  · cases hc : ids.contains ((accessionNat idn : Int))
    · simp [filterPick, h, hc, and_comm]
    · simp [filterPick, h, hc, and_comm]

theorem filter_for_mshr_id_mem (raw : List String) (ids : List Int)
    (x : String) :
    x ∈ filter_for_mshr_id raw ids ↔
      x ∈ raw ∧ ∃ idn, extract_mshr_id x = some idn ∧
        ids.contains ((accessionNat idn : Int)) = true := by
  rw [filter_for_mshr_id_shape, List.mem_flatMap]
  constructor
  · rintro ⟨a, ha, hx⟩
    rcases (filterPick_mem ids a x).mp hx with ⟨hxa, hrest⟩
    subst hxa
    exact ⟨ha, hrest⟩
  · rintro ⟨hx, hrest⟩
    exact ⟨x, hx, (filterPick_mem ids x x).mpr ⟨rfl, hrest⟩⟩

theorem compMatches_mem (raw terms : List String) (x : String) :
    x ∈ compMatches raw terms ↔
      x ∈ raw ∧ ∃ t ∈ terms, pyStrIn t (lowerStr x) = true := by
  simp only [compMatches, List.mem_flatMap, List.mem_filterMap]
  constructor
  · rintro ⟨a, ha, t, ht, hif⟩
    by_cases hc : pyStrIn t (lowerStr a) = true
    · rw [if_pos hc] at hif
      have hax : a = x := Option.some.inj hif
      subst hax
      exact ⟨ha, t, ht, hc⟩
    · rw [if_neg hc] at hif
      simp at hif
  · rintro ⟨hx, t, ht, hc⟩
    exact ⟨x, hx, t, ht, by rw [if_pos hc]⟩

theorem substrFiltered_mem (raw allow_list deny_list : List String)
    (x : String) :
    x ∈ substrFiltered raw allow_list deny_list ↔
      x ∈ raw ∧ (∃ a ∈ allow_list, pyStrIn a (lowerStr x) = true) ∧
        ∀ d ∈ deny_list, pyStrIn d (lowerStr x) = false := by
  simp only [substrFiltered, List.mem_filter]
  constructor
  · rintro ⟨hall, hden⟩
    have h1 := (compMatches_mem raw allow_list x).mp hall
    have h2 : x ∉ compMatches raw deny_list := by
      intro hmem
      rw [(contains_iff_mem_str _ x).mpr hmem] at hden
      simp at hden
    refine ⟨h1.1, h1.2, ?_⟩
    intro d hd
    cases hc : pyStrIn d (lowerStr x)
    · rfl
    · exact absurd ((compMatches_mem raw deny_list x).mpr ⟨h1.1, d, hd, hc⟩) h2
  · rintro ⟨hx, ⟨a, ha, hpa⟩, hdeny⟩
    refine ⟨(compMatches_mem raw allow_list x).mpr ⟨hx, a, ha, hpa⟩, ?_⟩
    cases hcont : (compMatches raw deny_list).contains x
    · simp
    · have hmem := (contains_iff_mem_str _ _).mp hcont
      rcases (compMatches_mem raw deny_list x).mp hmem with ⟨_, d, hd, hc⟩
      rw [hdeny d hd] at hc
      simp at hc

/-! ### Integer conversion of the id list -/

theorem intsOf_bad :
    ∀ (l : List String), (∃ t ∈ l, pyIntValid t = false) →
      ∃ t ∈ l, pyIntValid t = false ∧ intsOf l = .error (.valueError t) := by
  intro l
  induction l with
  | nil =>
    rintro ⟨t, ht, _⟩
    simp at ht
  | cons a rest ih =>
    rintro ⟨t, ht, hbad⟩
    by_cases ha : pyIntValid a = true
    · have hta : t ≠ a := by
        intro he
        rw [he, ha] at hbad
        simp at hbad
      have htrest : t ∈ rest := by
        rcases List.mem_cons.mp ht with h | h
        · exact absurd h hta
        · exact h
      rcases ih ⟨t, htrest, hbad⟩ with ⟨t2, ht2, hbad2, herr⟩
      refine ⟨t2, List.mem_cons_of_mem a ht2, hbad2, ?_⟩
      simp [intsOf, pyInt, ha, herr]
    · have ha2 : pyIntValid a = false := by
        cases h2 : pyIntValid a
        · rfl
        · exact absurd h2 ha
      refine ⟨a, List.mem_cons_self a rest, ha2, ?_⟩
      simp [intsOf, pyInt, ha2]

theorem intsOf_ok_of_all :
    ∀ (l : List String), (∀ t ∈ l, pyIntValid t = true) →
      intsOf l = .ok (l.map pyIntVal) := by
  intro l
  induction l with
  | nil => intro _; simp [intsOf]
  | cons a rest ih =>
    intro h
    have ha := h a (List.mem_cons_self a rest)
    have hrest := ih (fun t ht => h t (List.mem_cons_of_mem a ht))
    simp [intsOf, pyInt, ha, hrest]

/-! ### Distinctness of error messages and trace facts -/

theorem missingMsg_ne_usageMsg (f : String) : missingMsg f ≠ usageMsg := by
  intro h
  have h2 : (missingMsg f).data.head? = usageMsg.data.head? := by rw [h]
  have h3 : (missingMsg f).data.head? = some 'f' := rfl
  have h4 : usageMsg.data.head? = some 'M' := rfl
  rw [h3, h4] at h2
  exact absurd (Option.some.inj h2) (by decide)

theorem linkLoop_no_systemExit (fs : FS) (dry : Bool) :
    ∀ (tgt : PyTarget) (l : List String) (m : String),
      (linkLoop fs tgt dry l).1 ≠ Except.error (.systemExit m) := by
  intro tgt l
  induction l with
  | nil =>
    intro m h
    simp [linkLoop] at h
  | cons s rest ih =>
    intro m h
    cases tgt with
    | pstr s0 => simp [linkLoop, truediv] at h
    | ppath t0 =>
      simp only [linkLoop, truediv] at h
      cases dry with
      | true => exact ih m (by simpa using h)
      | false => exact ih m (by simpa using h)

theorem linkLoop_linked_dry (fs : FS) (tgt : PyTarget) :
    ∀ (l : List String), linkedOf (linkLoop fs tgt true l).2 = [] := by
  intro l
  induction l with
  | nil => simp [linkLoop, linkedOf]
  | cons s rest ih =>
    cases htd : truediv tgt (pathName s) with
    | error e => simp [linkLoop, htd, linkedOf]
    | ok d =>
      simp only [linkLoop, htd, linkedOf, List.filterMap_cons] at *
      simpa using ih

theorem linkLoop_printed_map (fs : FS) (tgt : PyTarget) :
    ∀ (l : List String),
      printedOf (linkLoop fs tgt true l).2
        = (linkedOf (linkLoop fs tgt false l).2).map
            (fun p => p.1 ++ " -> " ++ p.2) := by
  intro l
  induction l with
  | nil => simp [linkLoop, printedOf, linkedOf]
  | cons s rest ih =>
    cases htd : truediv tgt (pathName s) with
    | error e => simp [linkLoop, htd, printedOf, linkedOf]
    | ok d =>
      simp only [linkLoop, htd, printedOf, linkedOf, List.filterMap_cons] at *
      simpa using ih

theorem do_search_trace_clean (fs : FS) (file : Option String)
    (root pattern : String) (allow_list deny_list : List String) :
    linkedOf (do_search fs file root pattern allow_list deny_list).2 = [] ∧
      printedOf (do_search fs file root pattern allow_list deny_list).2 = [] := by
  cases file with
  | none => simp [do_search, linkedOf, printedOf]
  | some f =>
    cases hl : load_from_file fs f with
    | error e => simp [do_search, hl, linkedOf, printedOf]
    | ok ids => simp [do_search, hl, linkedOf, printedOf]

theorem contains_iff_mem_int (l : List Int) (a : Int) :
    l.contains a = true ↔ a ∈ l := List.elem_iff

theorem linkedOf_append (a b : List Ev) :
    linkedOf (a ++ b) = linkedOf a ++ linkedOf b := by
  simp [linkedOf, List.filterMap_append]

theorem printedOf_append (a b : List Ev) :
    printedOf (a ++ b) = printedOf a ++ printedOf b := by
  simp [printedOf, List.filterMap_append]

theorem do_search_trace_head (fs : FS) (file : Option String)
    (root pattern : String) (allow_list deny_list : List String) :
    ∃ tail, (do_search fs file root pattern allow_list deny_list).2
      = Ev.traversed root pattern :: tail := by
  cases file with
  | none => exact ⟨[], rfl⟩
  | some f =>
    cases hl : load_from_file fs f with
    | error e => exact ⟨[Ev.loadAttempt f], by simp [do_search, hl]⟩
    | ok ids => exact ⟨[Ev.loadAttempt f], by simp [do_search, hl]⟩

theorem do_search_error_char (fs : FS) (file : Option String)
    (root pattern : String) (allow_list deny_list : List String) (e : PyErr) :
    (do_search fs file root pattern allow_list deny_list).1 = .error e →
      ∃ f, file = some f ∧ load_from_file fs f = .error e := by
  cases file with
  | none => intro h; simp [do_search] at h
  | some f =>
    cases hl : load_from_file fs f with
    | error e2 =>
      intro h
      simp [do_search, hl] at h
      exact ⟨f, rfl, by rw [hl, h]⟩
    | ok ids => intro h; simp [do_search, hl] at h

theorem intsOf_error_shape :
    ∀ (l : List String) (e : PyErr),
      intsOf l = .error e → ∃ t, e = .valueError t := by
  intro l
  induction l with
  | nil => intro e h; simp [intsOf] at h
  | cons a rest ih =>
    intro e h
    by_cases ha : pyIntValid a = true
    · simp only [intsOf, pyInt, if_pos ha] at h
      cases hr : intsOf rest with
      | error e2 =>
        rw [hr] at h
        simp only [Except.error.injEq] at h
        rw [← h]
        exact ih e2 hr
      | ok vs =>
        rw [hr] at h
        simp at h
    · have ha2 : pyIntValid a = false := by
        cases h2 : pyIntValid a
        · rfl
        · exact absurd h2 ha
      simp only [intsOf, pyInt, ha2] at h
      simp only [Bool.false_eq_true, if_false, Except.error.injEq] at h
      exact ⟨a, h.symm⟩

theorem load_from_file_error_char (fs : FS) (f : String) (e : PyErr)
    (h : load_from_file fs f = .error e) :
    e = .systemExit (missingMsg f) ∨ ∃ t, e = .valueError t := by
  cases hex : fs.pathExists f
  · simp only [load_from_file, hex, Bool.false_eq_true, if_false,
      Except.error.injEq] at h
    exact Or.inl h.symm
  · simp only [load_from_file, hex, if_true] at h
    exact Or.inr (intsOf_error_shape _ e h)

theorem linkBody_traversed (fs : FS) (root pattern : Option String)
    (tgt : PyTarget) (file : Option String) (dry : Bool) :
    Ev.traversed (root.getD ".") (pattern.getD "*")
      ∈ (linkBody fs root pattern tgt file dry).2 := by
  rcases do_search_trace_head fs file (root.getD ".") (pattern.getD "*")
    ["mshr"] ["mixed"] with ⟨tail, htr⟩
  simp only [linkBody]
  rcases hds : do_search fs file (root.getD ".") (pattern.getD "*")
    ["mshr"] ["mixed"] with ⟨r, evs⟩
  rw [hds] at htr
  dsimp only at htr
  cases r with
  | error e =>
    simp only []
    rw [htr]
    exact List.mem_cons_self _ _
  | ok fps =>
    simp only []
    rw [htr]
    exact List.mem_append_left _ (List.mem_cons_self _ _)

theorem linkBody_no_usage (fs : FS) (root pattern : Option String)
    (tgt : PyTarget) (file : Option String) (dry : Bool) :
    (linkBody fs root pattern tgt file dry).1
      ≠ .error (.systemExit usageMsg) := by
  simp only [linkBody]
  rcases hds : do_search fs file (root.getD ".") (pattern.getD "*")
    ["mshr"] ["mixed"] with ⟨r, evs⟩
  cases r with
  | error e =>
    intro h
    simp only [] at h
    rcases do_search_error_char fs file (root.getD ".") (pattern.getD "*")
      ["mshr"] ["mixed"] e (by rw [hds]) with ⟨f, _, hload⟩
    rcases load_from_file_error_char fs f e hload with hmiss | ⟨t, hval⟩
    · rw [hmiss] at h
      simp only [Except.error.injEq, PyErr.systemExit.injEq] at h
      exact missingMsg_ne_usageMsg f h
    · rw [hval] at h
      simp at h
  | ok fps =>
    intro h
    simp only [] at h
    exact linkLoop_no_systemExit fs dry tgt
      (solve_duplicates fs.ctime fps "newest") usageMsg h

theorem linkBody_dry (fs : FS) (root pattern : Option String)
    (tgt : PyTarget) (file : Option String) :
    linkedOf (linkBody fs root pattern tgt file true).2 = []
    ∧ printedOf (linkBody fs root pattern tgt file true).2
        = (linkedOf (linkBody fs root pattern tgt file false).2).map
            (fun p => p.1 ++ " -> " ++ p.2) := by
  have hclean := do_search_trace_clean fs file (root.getD ".")
    (pattern.getD "*") ["mshr"] ["mixed"]
  simp only [linkBody]
  rcases hds : do_search fs file (root.getD ".") (pattern.getD "*")
    ["mshr"] ["mixed"] with ⟨r, evs⟩
  rw [hds] at hclean
  dsimp only at hclean
  cases r with
  | error e =>
    simp only []
    exact ⟨hclean.1, by rw [hclean.2, hclean.1]; simp⟩
  | ok fps =>
    simp only []
    constructor
    · rw [linkedOf_append, hclean.1, linkLoop_linked_dry]
      simp
    · rw [printedOf_append, hclean.2, linkedOf_append, hclean.1]
      simp only [List.nil_append]
      exact linkLoop_printed_map fs tgt (solve_duplicates fs.ctime fps "newest")

/-! ### Claim theorems -/

/-- Claim C7: on the representative inputs of the specification,
`extract_mshr_id` returns `123-4` for paths containing `MSHR123_4`,
returns `7-4` for paths containing `MSHR007MIXED-extra_R04` (leading
zeros of both captured groups normalized away by integer conversion),
and returns none for `no_identifier_here.txt`. -/
theorem extract_mshr_id_examples :
    extract_mshr_id "...MSHR123_4..." = some "123-4"
    ∧ extract_mshr_id "/data/x/MSHR123_4.fastq.gz" = some "123-4"
    ∧ extract_mshr_id "...MSHR007MIXED-extra_R04..." = some "7-4"
    ∧ extract_mshr_id "/data/x/MSHR007MIXED-extra_R04.fastq.gz" = some "7-4"
    ∧ extract_mshr_id "no_identifier_here.txt" = none :=
  ⟨rfl, rfl, rfl, rfl, rfl⟩

/-- Claim C1 counterexample: a candidate whose text yields no identifier
is NOT dropped by `solve_duplicates` under the default `newest` policy.
`None` is a legitimate dictionary key, so all such candidates form the
`None` group and are resolved like any other group; here a sole
unidentified candidate is returned unchanged. -/
theorem solve_duplicates_keeps_unidentified :
    extract_mshr_id "no_identifier_here.txt" = none
    ∧ solve_duplicates (fun _ => 0) ["no_identifier_here.txt"] "newest"
        = ["no_identifier_here.txt"] :=
  ⟨rfl, rfl⟩

/-- Claim C1 (amended): `solve_duplicates` groups candidates for which
`extract_mshr_id` returns none under the `None` key and resolves that
group like any other, so whenever the input contains an unidentified
candidate, the `newest`-policy result also contains an unidentified
candidate (rather than dropping them all). -/
theorem solve_duplicates_none_group (ct : String → Int)
    (paths : List String) (x : String) (hx : x ∈ paths)
    (hid : extract_mshr_id x = none) :
    ∃ y ∈ solve_duplicates ct paths "newest", extract_mshr_id y = none := by
  rcases buildFileMap_mem paths x hx with ⟨g, hg, hxg⟩
  rw [hid] at hg
  rcases g with _ | ⟨f, rest⟩
  · simp at hxg
  · refine ⟨newestOf ct (f :: rest) f, ?_, ?_⟩
    · rw [solve_duplicates_newest_shape, List.mem_flatMap]
      exact ⟨(none, f :: rest), hg, by simp [pickNewest]⟩
    · have hmem := newestOf_mem ct (f :: rest) f
      have hmem2 : newestOf ct (f :: rest) f ∈ f :: rest := by
        rcases List.mem_cons.mp hmem with h | h
        · rw [h]
          exact List.mem_cons_self _ _
        · exact h
      exact buildFileMap_inv paths none (f :: rest) hg _ hmem2

/-- Claim C1 witness: concrete instance of the amended claim. -/
theorem solve_duplicates_none_group_witness :
    ∃ y ∈ solve_duplicates (fun _ => 0) ["a/b.txt"] "newest",
      extract_mshr_id y = none :=
  solve_duplicates_none_group (fun _ => 0) ["a/b.txt"] "a/b.txt"
    (List.mem_singleton.mpr rfl) rfl

/-- Claim C4: under the `newest` policy, `solve_duplicates` returns, per
group in encounter order, exactly the group member selected by the
strict-greater fold: a member of the group with the greatest `st_ctime`
among the group, and the first such member in encounter order (every
member strictly before it has a strictly smaller timestamp); singleton
groups are returned unchanged. -/
theorem solve_duplicates_newest_correct (ct : String → Int)
    (paths : List String) (f : String) (rest : List String) :
    solve_duplicates ct paths "newest"
        = (buildFileMap paths).flatMap (pickNewest ct)
    ∧ pickNewest ct (extract_mshr_id f, f :: rest)
        = [newestOf ct (f :: rest) f]
    ∧ newestOf ct (f :: rest) f ∈ f :: rest
    ∧ (∀ y ∈ f :: rest, ct y ≤ ct (newestOf ct (f :: rest) f))
    ∧ (∃ pre post, f :: rest = pre ++ newestOf ct (f :: rest) f :: post
        ∧ ∀ y ∈ pre, ct y < ct (newestOf ct (f :: rest) f))
    ∧ (rest = [] → newestOf ct (f :: rest) f = f) := by
  refine ⟨solve_duplicates_newest_shape ct paths, rfl, ?_, ?_, ?_, ?_⟩
  · have hmem := newestOf_mem ct (f :: rest) f
    rcases List.mem_cons.mp hmem with h | h
    · rw [h]
      exact List.mem_cons_self _ _
    · exact h
  · intro y hy
    exact newestOf_ub ct (f :: rest) f y (List.mem_cons_of_mem f hy)
  · rcases newestOf_first ct (f :: rest) f with h | ⟨pre, post, hsplit, hlt⟩
    · refine ⟨[], rest, ?_, by simp⟩
      rw [h]
      simp
    · exact ⟨pre, post, hsplit, fun y hy => hlt y (List.mem_cons_of_mem f hy)⟩
  · intro hrest
    rw [hrest]
    exact newestOf_singleton ct f

/-- Claim C4 witness: with two candidates sharing identifier `5-1` and
creation times 1 < 2, the later one is selected. -/
theorem solve_duplicates_newest_correct_witness :
    solve_duplicates fsTwoDup.ctime ["d/MSHR5_1.x", "e/MSHR5_1.y"] "newest"
        = ["e/MSHR5_1.y"]
    ∧ newestOf fsTwoDup.ctime ["d/MSHR5_1.x", "e/MSHR5_1.y"] "d/MSHR5_1.x"
        ∈ ["d/MSHR5_1.x", "e/MSHR5_1.y"] := by
  have h := solve_duplicates_newest_correct fsTwoDup.ctime
    ["d/MSHR5_1.x", "e/MSHR5_1.y"] "d/MSHR5_1.x" ["e/MSHR5_1.y"]
  exact ⟨by rw [h.1]; rfl, h.2.2.1⟩

/-- Claim C5: for every policy other than `newest`, each multi-member
group contributes nothing to the result of `solve_duplicates`, while
each singleton group still contributes its sole candidate. -/
theorem solve_duplicates_unrecognized_policy (ct : String → Int)
    (policy : String) (hp : policy ≠ "newest") (paths : List String) :
    solve_duplicates ct paths policy
        = (buildFileMap paths).flatMap pickSingle
    ∧ (∀ (k : Option String) (f : String), pickSingle (k, [f]) = [f])
    ∧ (∀ (k : Option String) (f r : String) (t : List String),
        pickSingle (k, f :: r :: t) = []) := by
  refine ⟨solve_duplicates_other_shape ct policy hp paths, ?_, ?_⟩
  · intro k f
    rfl
  · intro k f r t
    rfl

/-- Claim C5 witness: the `oldest` policy drops a duplicate pair but
keeps a singleton group. -/
theorem solve_duplicates_unrecognized_policy_witness :
    ("oldest" : String) ≠ "newest"
    ∧ solve_duplicates (fun _ => 0)
        ["d/MSHR5_1.x", "e/MSHR5_1.y", "q.txt"] "oldest" = ["q.txt"] := by
  refine ⟨by decide, ?_⟩
  have h := solve_duplicates_unrecognized_policy (fun _ => 0) "oldest"
    (by decide) ["d/MSHR5_1.x", "e/MSHR5_1.y", "q.txt"]
  rw [h.1]
  rfl

/-- Claim C6: in the substring filtering of `do_search`, a candidate is
kept iff some allow-term is a substring of the lower-cased path text and
no deny-term is; deny membership always wins over allow membership. -/
theorem do_search_deny_precedence (fs : FS) (root pattern : String)
    (allow_list deny_list raw : List String) (x : String) :
    (do_search fs none root pattern allow_list deny_list).1
        = .ok (substrFiltered (fs.rglob root pattern) allow_list deny_list)
    ∧ (x ∈ substrFiltered raw allow_list deny_list ↔
        x ∈ raw ∧ (∃ a ∈ allow_list, pyStrIn a (lowerStr x) = true) ∧
          ∀ d ∈ deny_list, pyStrIn d (lowerStr x) = false) :=
  ⟨rfl, substrFiltered_mem raw allow_list deny_list x⟩

/-- Claim C6 witness: a path containing both `mshr` and `mixed` is
excluded under the default filters, while a plain `mshr` path is kept. -/
theorem do_search_deny_precedence_witness :
    "a/mshr_mixed.txt" ∉ substrFiltered ["a/mshr_mixed.txt"] ["mshr"] ["mixed"]
    ∧ "data/MSHR123_4.txt"
        ∈ substrFiltered ["data/MSHR123_4.txt"] ["mshr"] ["mixed"] := by
  constructor
  · intro hmem
    have h := (do_search_deny_precedence fsOneMatch "." "*" ["mshr"] ["mixed"]
      ["a/mshr_mixed.txt"] "a/mshr_mixed.txt").2.mp hmem
    have hd := h.2.2 "mixed" (List.mem_singleton.mpr rfl)
    have htrue : pyStrIn "mixed" (lowerStr "a/mshr_mixed.txt") = true := rfl
    rw [htrue] at hd
    simp at hd
  · exact (do_search_deny_precedence fsOneMatch "." "*" ["mshr"] ["mixed"]
      ["data/MSHR123_4.txt"] "data/MSHR123_4.txt").2.mpr
      ⟨List.mem_singleton.mpr rfl, ⟨"mshr", List.mem_singleton.mpr rfl, rfl⟩,
        by
          intro d hd
          rw [List.mem_singleton.mp hd]
          rfl⟩

/-- Claim C3 counterexample: with a missing identifier-list file,
`do_search` does fail fatally, but NOT before the directory traversal:
`Path(root).rglob(pattern)` is forced into a list on line 181, before
`load_from_file` runs on line 183, so the traversal event precedes the
failure in the trace. -/
theorem do_search_missing_file_traverses :
    do_search fsNoIds (some "ids.txt") "." "*" ["mshr"] ["mixed"]
        = (.error (.systemExit (missingMsg "ids.txt")),
            [Ev.traversed "." "*", Ev.loadAttempt "ids.txt"])
    ∧ Ev.traversed "." "*"
        ∈ (do_search fsNoIds (some "ids.txt") "." "*" ["mshr"] ["mixed"]).2 :=
  ⟨rfl, List.mem_cons_self _ _⟩

/-- Claim C3 (amended): a nonexistent identifier-list path makes
`do_search` fail fatally, though only after the directory traversal has
been performed; a file containing `123 124 125` loads the filter set
`{123, 124, 125}`, and the identifier filter keeps exactly the
candidates whose extracted accession integer lies in that set, dropping
candidates that yield no identifier. -/
theorem do_search_id_file_behaviour :
    (∀ (fs : FS) (f root pattern : String)
        (allow_list deny_list : List String),
      fs.pathExists f = false →
        do_search fs (some f) root pattern allow_list deny_list
          = (.error (.systemExit (missingMsg f)),
              [Ev.traversed root pattern, Ev.loadAttempt f]))
    ∧ (∀ (fs : FS) (f : String), fs.pathExists f = true →
        fs.read_text f = "123 124 125" →
        load_from_file fs f = .ok [123, 124, 125])
    ∧ (∀ (raw : List String) (x : String),
        x ∈ filter_for_mshr_id raw [123, 124, 125] ↔
          x ∈ raw ∧ ∃ idn, extract_mshr_id x = some idn ∧
            (accessionNat idn : Int) ∈ ([123, 124, 125] : List Int)) := by
  refine ⟨?_, ?_, ?_⟩
  · intro fs f root pattern allow_list deny_list h
    simp [do_search, load_from_file, h]
  · intro fs f hex hread
    simp only [load_from_file, hex, if_true, hread]
    rfl
  · intro raw x
    rw [filter_for_mshr_id_mem]
    constructor
    · rintro ⟨hx, idn, hidn, hc⟩
      exact ⟨hx, idn, hidn, (contains_iff_mem_int _ _).mp hc⟩
    · rintro ⟨hx, idn, hidn, hm⟩
      exact ⟨hx, idn, hidn, (contains_iff_mem_int _ _).mpr hm⟩

/-- Claim C3 witness: concrete instances of all three parts. -/
theorem do_search_id_file_behaviour_witness :
    do_search fsNoIds (some "missing.txt") "." "*" ["mshr"] ["mixed"]
        = (.error (.systemExit (missingMsg "missing.txt")),
            [Ev.traversed "." "*", Ev.loadAttempt "missing.txt"])
    ∧ load_from_file fsThreeIds "ids.txt" = .ok [123, 124, 125]
    ∧ "data/MSHR123_4.txt"
        ∈ filter_for_mshr_id ["data/MSHR123_4.txt"] [123, 124, 125] := by
  have h := do_search_id_file_behaviour
  refine ⟨h.1 fsNoIds "missing.txt" "." "*" ["mshr"] ["mixed"] rfl,
    h.2.1 fsThreeIds "ids.txt" rfl rfl, ?_⟩
  exact (h.2.2 ["data/MSHR123_4.txt"] "data/MSHR123_4.txt").mpr
    ⟨List.mem_singleton.mpr rfl, "123-4", rfl, by decide⟩

/-- Claim C8: `link` with neither `file` nor `target` fails with the
usage message before any file-system operation (the event trace is
empty); supplying either one passes this validation: the traversal is
then performed and the run never ends in the usage-message exit. -/
theorem link_usage_validation :
    (∀ (fs : FS) (root pattern : Option String) (dry : Bool),
      link fs root pattern none none dry
        = (.error (.systemExit usageMsg), []))
    ∧ (∀ (fs : FS) (root pattern target file : Option String) (dry : Bool),
        target ≠ none ∨ file ≠ none →
        Ev.traversed (root.getD ".") (pattern.getD "*")
            ∈ (link fs root pattern target file dry).2
        ∧ (link fs root pattern target file dry).1
            ≠ .error (.systemExit usageMsg)) := by
  constructor
  · intro fs root pattern dry
    rfl
  · intro fs root pattern target file dry h
    cases file with
    | some f =>
      cases target with
      | some t =>
        exact ⟨linkBody_traversed fs root pattern (.ppath t) (some f) dry,
          linkBody_no_usage fs root pattern (.ppath t) (some f) dry⟩
      | none =>
        exact ⟨linkBody_traversed fs root pattern (.pstr ".") (some f) dry,
          linkBody_no_usage fs root pattern (.pstr ".") (some f) dry⟩
    | none =>
      cases target with
      | some t =>
        exact ⟨linkBody_traversed fs root pattern (.ppath t) none dry,
          linkBody_no_usage fs root pattern (.ppath t) none dry⟩
      | none =>
        rcases h with h | h
        · exact absurd rfl h
        · exact absurd rfl h

/-- Claim C8 witness: concrete instances of both parts. -/
theorem link_usage_validation_witness :
    link fsNoIds none none none none false
        = (.error (.systemExit usageMsg), [])
    ∧ ((some "/t" : Option String) ≠ none ∨ (none : Option String) ≠ none)
    ∧ Ev.traversed "." "*"
        ∈ (link fsNoIds none none (some "/t") none false).2
    ∧ (link fsNoIds none none (some "/t") none false).1
        ≠ .error (.systemExit usageMsg) := by
  have h := link_usage_validation
  have h2 := h.2 fsNoIds none none (some "/t") none false
    (Or.inl (by simp))
  exact ⟨h.1 fsNoIds none none false, Or.inl (by simp), h2.1, h2.2⟩

/-- Claim C9: `dry-link` records no symlink creation at all, and the
lines it prints are exactly, in order, the rendered
`<absolute destination> -> <absolute source>` pairs of the symlinks that
`link` with `dry_run = false` creates on the same input. -/
theorem dry_link_no_mutation (fs : FS)
    (root pattern target file : Option String) :
    linkedOf (dry_link fs root pattern target file).2 = []
    ∧ printedOf (dry_link fs root pattern target file).2
        = (linkedOf (link fs root pattern target file false).2).map
            (fun p => p.1 ++ " -> " ++ p.2) := by
  cases file with
  | some f =>
    cases target with
    | some t => exact linkBody_dry fs root pattern (.ppath t) (some f)
    | none => exact linkBody_dry fs root pattern (.pstr ".") (some f)
  | none =>
    cases target with
    | some t => exact linkBody_dry fs root pattern (.ppath t) none
    | none => exact ⟨rfl, rfl⟩

/-- Claim C9 witness: a concrete dry run prints exactly the link the
real run creates, and records no link itself. -/
theorem dry_link_no_mutation_witness :
    linkedOf (dry_link fsOneMatch none none (some "/t") (some "ids.txt")).2
        = []
    ∧ printedOf (dry_link fsOneMatch none none (some "/t") (some "ids.txt")).2
        = ["/t/MSHR123_4.txt -> /home/user/data/MSHR123_4.txt"] := by
  have h := dry_link_no_mutation fsOneMatch none none (some "/t")
    (some "ids.txt")
  refine ⟨h.1, ?_⟩
  rw [h.2]
  rfl

/-- Claim C10: when the identifier-list file exists but holds a token
that is not a valid integer literal, the conversion raises `ValueError`;
`main` re-raises every `Exception`, so the process crashes with a stack
trace, unlike the graceful usage-message termination of the
missing-file case (`SystemExit` is not an `Exception`). -/
theorem load_bad_token_crashes :
    (∀ (fs : FS) (f : String), fs.pathExists f = true →
      (∃ t ∈ splitWs (fs.read_text f), pyIntValid t = false) →
      ∃ t, pyIntValid t = false ∧
        load_from_file fs f = .error (.valueError t) ∧
        ∀ (root pattern : Option String) (allow_list deny_list : List String),
          mainOutcome (search fs (some f) root pattern
              allow_list deny_list).1 = .crashed (.valueError t))
    ∧ (∀ (fs : FS) (f : String), fs.pathExists f = false →
        load_from_file fs f = .error (.systemExit (missingMsg f)) ∧
        mainOutcome (.error (.systemExit (missingMsg f)))
          = .usageTermination (missingMsg f)) := by
  constructor
  · intro fs f hex hbad
    rcases intsOf_bad (splitWs (fs.read_text f)) hbad with ⟨t, _, hbadt, herr⟩
    have hload : load_from_file fs f = .error (.valueError t) := by
      simp [load_from_file, hex, herr]
    refine ⟨t, hbadt, hload, ?_⟩
    intro root pattern allow_list deny_list
    simp [search, do_search, hload, mainOutcome]
  · intro fs f hex
    exact ⟨by simp [load_from_file, hex], rfl⟩

/-- Claim C10 witness: an id file with contents `123 abc` crashes with
`ValueError` on `abc`. -/
theorem load_bad_token_crashes_witness :
    ∃ t, pyIntValid t = false ∧
      load_from_file fsBadToken "bad.txt" = .error (.valueError t) ∧
      ∀ (root pattern : Option String) (allow_list deny_list : List String),
        mainOutcome (search fsBadToken (some "bad.txt") root pattern
            allow_list deny_list).1 = .crashed (.valueError t) :=
  load_bad_token_crashes.1 fsBadToken "bad.txt" rfl
    ⟨"abc", by decide, rfl⟩

/-- Claim C2: `link` does default an unset `root`, `pattern` and
`target` to `.`, `*` and `.` respectively, and with a `Path` target the
destination is `target/<candidate file name>`; but `link` called with a
file and no target does NOT behave as if the target were the directory
`.`: the defaulted `target` is the plain string `.`, so the destination
computation `target / source.name` on line 232 raises `TypeError` as
soon as one candidate survives duplicate resolution, in real and in dry
mode alike.  The defaulted traversal arguments `.` and `*` are visible
in the trace. -/
theorem link_default_target_type_error :
    link fsOneMatch none none none (some "ids.txt") false
        = (.error (.typeError typeDivMsg),
            [Ev.traversed "." "*", Ev.loadAttempt "ids.txt"])
    ∧ link fsOneMatch none none none (some "ids.txt") true
        = (.error (.typeError typeDivMsg),
            [Ev.traversed "." "*", Ev.loadAttempt "ids.txt"])
    ∧ truediv (PyTarget.ppath "/t") "MSHR123_4.txt" = .ok "/t/MSHR123_4.txt"
    ∧ link fsOneMatch none none (some "/t") (some "ids.txt") false
        = (.ok (),
            [Ev.traversed "." "*", Ev.loadAttempt "ids.txt",
              Ev.linked "/t/MSHR123_4.txt" "/home/user/data/MSHR123_4.txt"]) :=
  ⟨rfl, rfl, rfl, rfl⟩
